import Mathlib

/-!
Verification of `extract_citations.py` (Allen-AI-Report-Parser).

The Python source is shallowly embedded in Lean.  Strings manipulated by the
text-layout routines (where the claims are about character counts) are
modelled as `List Char`; the pipeline-level data (citations, caches,
reference lists) uses Lean `String`.  Python dicts with string keys are
modelled as association lists in insertion order, mirroring CPython's
ordered-dict semantics.  Network I/O (`requests.get`) is modelled by an
oracle: a function from the attempt number (resp. the corpus id) to the
response observed.
-/

namespace ExtractCitations

/-! ## Character-level strings for the text-layout routines -/

/-- Strings of the text-layout routines, modelled as lists of characters so
that lengths, slicing and concatenation are transparent. -/
abbrev PyStr := List Char

/-- Converts a Lean string literal into the character-list model. -/
def pyStr (s : String) : PyStr := s.data

/-- Helper for Python `text.split()`: scans the characters, accumulating the
current word in reverse; a whitespace character flushes the accumulated
word (if any). -/
def splitWordsAux : PyStr → PyStr → List PyStr
  | [], cur => if cur.isEmpty then [] else [cur.reverse]
  | c :: rest, cur =>
    if c.isWhitespace then
      if cur.isEmpty then splitWordsAux rest []
      else cur.reverse :: splitWordsAux rest []
    else splitWordsAux rest (c :: cur)

/-- Python `text.split()` (no argument): splits on runs of whitespace and
discards empty pieces. -/
def pySplit (text : PyStr) : List PyStr := splitWordsAux text []

/-- Python `' '.join(words)`. -/
def joinWords : List PyStr → PyStr
  | [] => []
  | [w] => w
  | w :: ws => w ++ ' ' :: joinWords ws

/-- Python `text.ljust(width)`: pads with trailing spaces up to `width`;
a string already at least `width` long is returned unchanged. -/
def pyLjustChars (text : PyStr) (width : Nat) : PyStr :=
  text ++ List.replicate (width - text.length) ' '

/-- Gap builder of `justify_text` (src/extract_citations.py:32-36): each of
`words[:-1]` is emitted followed by its gap (`spaces_per_gap` spaces, one
extra for the first `extra_spaces` gaps, `i` being the running index), and
the last word is emitted plain. -/
def buildJustified : List PyStr → Nat → Nat → Nat → PyStr
  | [], _, _, _ => []
  | [w], _, _, _ => w
  | w :: ws, spaces_per_gap, extra_spaces, i =>
    w ++ List.replicate (spaces_per_gap + (if i < extra_spaces then 1 else 0)) ' '
      ++ buildJustified ws spaces_per_gap extra_spaces (i + 1)

/-- Embeds `justify_text` (src/extract_citations.py:16-38).  In the branch
that distributes spaces, Python's `width - total_chars` is non-negative
because there `total_chars ≤ len(text) < width`, so `Nat` subtraction agrees
with Python's `int` subtraction. -/
def justify_text (text : PyStr) (width : Nat) : PyStr :=
  let words := pySplit text
  if words.length ≤ 1 ∨ width ≤ text.length then
    pyLjustChars text width
  else
    let total_chars := (words.map List.length).sum
    let total_gaps := words.length - 1
    let total_spaces_needed := width - total_chars
    if total_gaps = 0 then
      pyLjustChars text width
    else
      buildJustified words (total_spaces_needed / total_gaps)
        (total_spaces_needed % total_gaps) 0

/-- Embeds the word loop of `wrap_text_justified`
(src/extract_citations.py:48-61), including the final flush of
`current_line` (which Python appends unjustified). -/
def wrapAux (width : Nat) (justify : Bool) :
    List PyStr → List PyStr → Nat → List PyStr → List PyStr
  | [], current_line, _, lines =>
    if current_line.isEmpty then lines else lines ++ [joinWords current_line]
  | word :: rest, current_line, current_length, lines =>
    if current_length + word.length + current_line.length ≤ width then
      wrapAux width justify rest (current_line ++ [word])
        (current_length + word.length) lines
    else
      let lines' :=
        if current_line.isEmpty then lines
        else
          lines ++ [if justify then justify_text (joinWords current_line) width
                    else joinWords current_line]
      wrapAux width justify rest [word] word.length lines'

/-- Embeds `wrap_text_justified` (src/extract_citations.py:41-63). -/
def wrap_text_justified (text : PyStr) (width : Nat) (justify : Bool) :
    List PyStr :=
  let lines := wrapAux width justify (pySplit text) [] 0 []
  if lines.isEmpty then [[]] else lines

/-! ## Table formatting -/

/-- Model of a row dict of a report table: `id` and `displayValue` are the
keys read by `format_table`; `none` means the key is absent, so the Python
`row.get(..., default)` falls back to its default. -/
structure TableRow where
  id : Option String
  displayValue : Option String
deriving DecidableEq

/-- Model of a (truthy, i.e. non-empty) table dict.  `title = none` means the
`'title'` key is absent, so `table_data.get('title', 'Table')` yields
`"Table"`; a falsy title value is represented by the empty string.  The
`'columns'` and `'rows'` keys default to `[]` when absent, which Python's
`get(..., [])` makes indistinguishable from explicit empty lists.  The
`'cells'` key is read by the source but never used, so it is not modelled. -/
structure TableData where
  title : Option String
  columns : List String
  rows : List TableRow
deriving DecidableEq

/-- Embeds `format_table` (src/extract_citations.py:66-96).  The argument is
an `Option` because Python first tests `if not table_data`: `none` stands
for a falsy table value (`None` or `{}`), for which the function returns no
lines.  The `width` parameter is accepted and ignored, as in the source. -/
def format_table (table_data : Option TableData) (width : Nat) : List String :=
  match table_data with
  | none => []
  | some td =>
    let title := td.title.getD "Table"
    let lines := if title ≠ "" then ["TABLE: " ++ title, ""] else []
    if td.columns.isEmpty || td.rows.isEmpty then
      lines ++ ["(Table data structure not fully populated)"]
    else
      let preview := (td.rows.take 5).map
        (fun row => "  • " ++ row.displayValue.getD "N/A")
      let more :=
        if td.rows.length > 5 then
          ["  ... and " ++ toString (td.rows.length - 5) ++ " more rows"]
        else []
      lines ++ ["Table Contents:"] ++ preview ++ more

/-! ## Python dicts as insertion-ordered association lists -/

/-- Python dict with `String` keys, modelled as an association list in
insertion order with (by construction) at most one entry per key. -/
abbrev PyDict (α : Type) := List (String × α)

/-- Python `k in d`. -/
def containsKey (d : PyDict α) (k : String) : Bool :=
  d.any (fun p => p.1 == k)

/-- Python `d[k]` read (as an `Option`; `d.get(k)` is `getVal? d k` with a
`none` fallback). -/
def getVal? (d : PyDict α) (k : String) : Option α :=
  (d.find? (fun p => p.1 == k)).map (fun p => p.2)

/-- Python `d[k] = v`: updates the value in place when the key exists,
otherwise appends the new entry (CPython insertion order). -/
def setVal (d : PyDict α) (k : String) (v : α) : PyDict α :=
  if containsKey d k then
    d.map (fun p => if p.1 == k then (k, v) else p)
  else d ++ [(k, v)]

/-- Python `doi_cache.get(corpus_id)` where the stored values are
DOI-or-`None`: collapses "key absent" and "stored `None`" to `none`,
exactly as the rendering code observes them. -/
def cacheGet (cache : PyDict (Option String)) (corpus_id : String) :
    Option String :=
  (getVal? cache corpus_id).join

/-! ## Citations and sections -/

/-- Model of a retained citation record
(src/extract_citations.py:130-137): kept only when both `corpusId` and `id`
are present; `display` holds the `id` field ("(Author, Year)" label).  The
`paper` metadata is carried along in the source but never consulted by the
logic under verification, so it is not modelled. -/
structure Citation where
  corpus_id : String
  display : String
deriving DecidableEq

/-- Model of a normalized section (src/extract_citations.py:122-127). -/
structure Section where
  title : String
  text : String
  table : Option TableData
  citations : List Citation
deriving DecidableEq

/-- One step of collecting the unique corpus ids: `unique_corpus_ids.add`
keeps the accumulator duplicate-free. -/
def addUniqueId (acc : List String) (c : Citation) : List String :=
  if acc.contains c.corpus_id then acc else acc ++ [c.corpus_id]

/-- Collects all unique corpus ids of all citations
(src/extract_citations.py:274-277).  The source accumulates them in a
Python `set`, whose iteration order is unspecified; the model fixes
first-encounter order, which is duplicate-free like the set, and none of
the verified properties depend on the order. -/
def uniqueCorpusIds (sections : List Section) : List String :=
  sections.foldl (fun acc s => s.citations.foldl addUniqueId acc) []

/-! ## Legacy text-file import (src/extract_citations.py:293-309) -/

/-- Embeds one iteration of the legacy-import loop
(src/extract_citations.py:296-305): when the citation's display label is a
key of the parsed text-file map and its corpus id is not yet cached, the
text-file DOI is written into the cache. -/
def importStep (citation_text_map : PyDict String)
    (cache : PyDict (Option String)) (c : Citation) : PyDict (Option String) :=
  match getVal? citation_text_map c.display with
  | some doi =>
    if containsKey cache c.corpus_id then cache
    else setVal cache c.corpus_id (some doi)
  | none => cache

/-- Embeds the legacy-import merge (src/extract_citations.py:293-305): the
loops run only when the parsed map is non-empty (`if citation_text_map:`),
and walk every citation of every section in order. -/
def importLegacy (cache : PyDict (Option String))
    (citation_text_map : PyDict String) (sections : List Section) :
    PyDict (Option String) :=
  if citation_text_map.isEmpty then cache
  else
    sections.foldl
      (fun cache s => s.citations.foldl (importStep citation_text_map) cache)
      cache

/-! ## DOI resolution (src/extract_citations.py:314-331) -/

/-- Ids partitioned as needing a fetch: the unique ids not already cached
(src/extract_citations.py:315-320). -/
def toFetch (cache : PyDict (Option String)) (ids : List String) :
    List String :=
  ids.filter (fun corpus_id => !containsKey cache corpus_id)

/-- Embeds the fetch loop (src/extract_citations.py:326-331): every id
needing a fetch is looked up exactly once and its result (a DOI or `none`)
is recorded in the cache.  `fetchResult` is the oracle for what
`fetch_doi_from_semantic_scholar` returns for each id. -/
def resolveAll (cache : PyDict (Option String)) (ids : List String)
    (fetchResult : String → Option String) : PyDict (Option String) :=
  (toFetch cache ids).foldl
    (fun cache corpus_id => setVal cache corpus_id (fetchResult corpus_id))
    cache

/-! ## Rate-limited fetch with backoff (src/extract_citations.py:207-243) -/

/-- Observed outcome of one `requests.get` to the lookup service:
a successful response carrying an optional DOI, an HTTP error status
(raised by `raise_for_status`), or any other request failure. -/
inductive ApiResult where
  | success (doi : Option String)
  | httpError (status : Nat)
  | requestError
deriving DecidableEq

/-- Embeds the retry loop of `fetch_doi_from_semantic_scholar`
(src/extract_citations.py:212-243).  `resp` is the oracle giving the
response of the attempt numbered `attempt`; the first argument is the list
of attempt numbers still to run (`for attempt in range(max_retries)`; a
`continue` moves to the next one, any `return` stops).  The result pairs
the returned DOI with the list of backoff delays passed to `time.sleep`,
in order. -/
def fetchGo (resp : Nat → ApiResult) (max_retries : Nat) :
    List Nat → List Nat → Option String × List Nat
  | [], sleeps => (none, sleeps)
  | attempt :: restAttempts, sleeps =>
    match resp attempt with
    | .success doi => (doi, sleeps)
    | .httpError status =>
      if status = 429 then
        let wait_time := 2 ^ attempt * 3
        if attempt < max_retries - 1 then
          fetchGo resp max_retries restAttempts (sleeps ++ [wait_time])
        else (none, sleeps)
      else (none, sleeps)
    | .requestError => (none, sleeps)

/-- Embeds `fetch_doi_from_semantic_scholar` (src/extract_citations.py:207):
runs the retry loop over attempts `range(max_retries)` with no sleeps
recorded yet. -/
def fetch_doi_from_semantic_scholar (resp : Nat → ApiResult)
    (max_retries : Nat) : Option String × List Nat :=
  fetchGo resp max_retries (List.range max_retries) []

/-! ## Reference list (src/extract_citations.py:348-360 and 419-424) -/

/-- Embeds the reference fold (src/extract_citations.py:349-358): walks all
citations of all sections in order; a display name not yet in the dict is
assigned the cached DOI of that occurrence's corpus id. -/
def buildAllReferences (cache : PyDict (Option String))
    (sections : List Section) : PyDict (Option String) :=
  sections.foldl
    (fun refs s =>
      s.citations.foldl
        (fun refs c =>
          if containsKey refs c.display then refs
          else setVal refs c.display (cacheGet cache c.corpus_id))
        refs)
    []

/-- Python's `<` on strings, character-list level: lexicographic by code
point, a strict prefix being smaller. -/
def charLtB : List Char → List Char → Bool
  | _, [] => false
  | [], _ :: _ => true
  | a :: as, b :: bs =>
    if a < b then true
    else if b < a then false
    else charLtB as bs

/-- Python's default (case-sensitive, code-point-lexicographic) string
ordering. -/
def strLtB (a b : String) : Bool := charLtB a.data b.data

/-- Insertion step of the sort modelling Python's
`sorted(all_references.items())`: keys are pairwise distinct (they come
from a dict), so comparing first components under Python's default string
ordering determines the order completely. -/
def insertPair (p : String × Option String) :
    List (String × Option String) → List (String × Option String)
  | [] => [p]
  | q :: qs => if strLtB p.1 q.1 then p :: q :: qs else q :: insertPair p qs

/-- Sort modelling `sorted(all_references.items())`
(src/extract_citations.py:360). -/
def sortRefs : List (String × Option String) → List (String × Option String)
  | [] => []
  | p :: ps => insertPair p (sortRefs ps)

/-- Embeds the rendering of one reference line
(src/extract_citations.py:419-424): Python tests `if ref_doi:`, which is
false both for `None` and for the empty string. -/
def renderRefLine (p : String × Option String) : String :=
  let doi_url :=
    match p.2 with
    | some doi => if doi = "" then "NO DOI FOUND" else "https://doi.org/" ++ doi
    | none => "NO DOI FOUND"
  p.1 ++ " -> " ++ doi_url

/-- Embeds the reference-list portion of the right column: the folded
references, sorted, each rendered as one line. -/
def referenceLines (cache : PyDict (Option String))
    (sections : List Section) : List String :=
  (sortRefs (buildAllReferences cache sections)).map renderRefLine

/-! Specification-side definitions for claim C3 (from the spec's words, to
be compared with the code-side definitions above). -/

/-- Modelled from the spec: the (display name, cached DOI) pairs of all
citations across all sections, in order. -/
def allCitationPairs (cache : PyDict (Option String))
    (sections : List Section) : List (String × Option String) :=
  ((sections.map Section.citations).flatten).map
    (fun c => (c.display, cacheGet cache c.corpus_id))

/-- Modelled from the spec: keep only the first-seen pair per display
name, `seen` holding the display names already kept. -/
def dedupFirstSeenAux (seen : List String) :
    List (String × Option String) → List (String × Option String)
  | [] => []
  | p :: ps =>
    if seen.any (fun k => k == p.1) then dedupFirstSeenAux seen ps
    else p :: dedupFirstSeenAux (seen ++ [p.1]) ps

/-- Modelled from the spec: keep only the first-seen pair per display
name. -/
def dedupFirstSeen (l : List (String × Option String)) :
    List (String × Option String) :=
  dedupFirstSeenAux [] l

/-- Modelled from the spec (claim C3's words, verbatim): each entry renders
as "display_name -> https://doi.org/<doi>" when a DOI is present and
"display_name -> NO DOI FOUND" when it is absent. -/
def specRefLine (p : String × Option String) : String :=
  match p.2 with
  | some doi => p.1 ++ " -> https://doi.org/" ++ doi
  | none => p.1 ++ " -> NO DOI FOUND"

/-- Modelled from the spec: the rendered reference list per claim C3's
words. -/
def specReferenceLines (cache : PyDict (Option String))
    (sections : List Section) : List String :=
  (sortRefs (dedupFirstSeen (allCitationPairs cache sections))).map specRefLine

/-- Modelled from the spec as amended: a non-empty DOI renders as
"display_name -> https://doi.org/<doi>"; an absent or empty DOI renders as
"display_name -> NO DOI FOUND". -/
def specRefLineAmended (p : String × Option String) : String :=
  match p.2 with
  | some doi =>
    if doi = "" then p.1 ++ " -> NO DOI FOUND"
    else p.1 ++ " -> https://doi.org/" ++ doi
  | none => p.1 ++ " -> NO DOI FOUND"

/-- Modelled from the spec as amended for claim C3. -/
def specReferenceLinesAmended (cache : PyDict (Option String))
    (sections : List Section) : List String :=
  (sortRefs (dedupFirstSeen (allCitationPairs cache sections))).map
    specRefLineAmended

/-! ## Two-column assembly (src/extract_citations.py:428-433) -/

/-- Python `s.ljust(width)` on Lean strings. -/
def pyLjust (s : String) (width : Nat) : String :=
  s ++ String.mk (List.replicate (width - s.length) ' ')

/-- Fixed left column width (src/extract_citations.py:366). -/
def leftWidth : Nat := 95

/-- Embeds the final assembly loop (src/extract_citations.py:428-433): for
each index below the longer column's length, the left line (or `""` past
the end) is left-justified to `leftWidth` and joined to the right line (or
`""`) with the fixed delimiter. -/
def assembleLines (left_content right_content : List String) : List String :=
  (List.range (max left_content.length right_content.length)).map
    (fun i =>
      pyLjust (left_content.getD i "") leftWidth ++ " | "
        ++ right_content.getD i "")

/-- Modelled from the spec (claim C8's words): a line padded or truncated
to exactly `width` characters. -/
def padOrTruncate (s : String) (width : Nat) : String :=
  if width ≤ s.length then String.mk (s.data.take width) else pyLjust s width

/-- Appending an empty string is the identity. -/
theorem string_append_mk_nil (s : String) : s ++ String.mk [] = s := by
  cases s
  simp

/-! ## Claim C1: rate-limit backoff sequence -/

/-- Claim C1 counterexample: when the lookup returns HTTP 429 on all 5
attempts, the delays actually slept are not [3, 6, 12, 24, 48]: the 48 s
wait of the final attempt is computed but never slept, because the loop
only sleeps when `attempt < max_retries - 1`. -/
theorem backoff_sleeps_ne_claimed :
    (fetch_doi_from_semantic_scholar (fun _ => .httpError 429) 5).2 ≠
      [3, 6, 12, 24, 48] := by decide

/-- Claim C1 (amended): for every run in which the external lookup returns
HTTP 429 on all 5 attempts, the resolver gives up with no DOI and the
sequence of backoff delays slept is exactly [3, 6, 12, 24] seconds
(3 × 2^attempt for attempts 0 through 3); the fifth attempt fails without a
further sleep. -/
theorem backoff_sleeps_all_rate_limited (resp : Nat → ApiResult)
    (h : ∀ a, a < 5 → resp a = .httpError 429) :
    fetch_doi_from_semantic_scholar resp 5 = (none, [3, 6, 12, 24]) := by
  have h0 := h 0 (by omega)
  have h1 := h 1 (by omega)
  have h2 := h 2 (by omega)
  have h3 := h 3 (by omega)
  have h4 := h 4 (by omega)
  show fetchGo resp 5 (List.range 5) [] = (none, [3, 6, 12, 24])
  rw [show List.range 5 = [0, 1, 2, 3, 4] from rfl]
  simp [fetchGo, h0, h1, h2, h3, h4]

/-- Claim C1 witness: the constant-429 oracle satisfies the hypothesis and
yields exactly the amended sleep sequence. -/
theorem backoff_sleeps_all_rate_limited_witness :
    fetch_doi_from_semantic_scholar (fun _ => ApiResult.httpError 429) 5 =
      (none, [3, 6, 12, 24]) :=
  backoff_sleeps_all_rate_limited _ (fun _ _ => rfl)

/-! ## Claim C2: table missing required structure -/

/-- Claim C2 counterexample: a truthy table dict with no columns and no
rows (and no explicit title, so the default `'Table'` applies) renders a
title line and a blank line before the placeholder — three lines, not
exactly the single placeholder line. -/
theorem format_table_counterexample :
    format_table (some ⟨none, [], []⟩) 94 =
        ["TABLE: Table", "", "(Table data structure not fully populated)"] ∧
      format_table (some ⟨none, [], []⟩) 94 ≠
        ["(Table data structure not fully populated)"] := by
  constructor <;> decide

/-- Claim C2 (amended): for every table value whose list of columns or list
of rows is empty or missing, the table-formatting operation renders the
"not fully populated" placeholder as its only content line, preceded by a
"TABLE: <title>" line and a blank line whenever the effective title (the
`'title'` value, defaulting to "Table" when the key is absent) is
non-empty; nothing else is rendered. -/
theorem format_table_missing_structure (td : TableData) (width : Nat)
    (h : td.columns.isEmpty || td.rows.isEmpty) :
    format_table (some td) width =
      (if td.title.getD "Table" ≠ "" then
          ["TABLE: " ++ td.title.getD "Table", ""]
        else [])
        ++ ["(Table data structure not fully populated)"] := by
  simp only [format_table, h, if_true]

/-- Claim C2 witness: a table with one column but no rows renders its title
header followed by the placeholder. -/
theorem format_table_missing_structure_witness :
    format_table (some ⟨some "T", ["c"], []⟩) 80 =
      ["TABLE: T", "", "(Table data structure not fully populated)"] :=
  (format_table_missing_structure ⟨some "T", ["c"], []⟩ 80 (by decide)).trans
    (by decide)

/-! ## Claim C8: two-column assembly -/

/-- Claim C8 counterexample: a left-column line of 96 characters is not
truncated to 95 by the assembly — Python's `ljust` only pads — so the
assembled line differs from the padded-or-truncated form the claim
asserts. -/
theorem assembleLines_counterexample :
    assembleLines [String.mk (List.replicate 96 'A')] [] ≠
      [padOrTruncate (String.mk (List.replicate 96 'A')) 95 ++ " | " ++ ""] := by
  decide

/-- Claim C8 (amended): output line `i` of the final two-column assembly is
the `i`-th left-column line padded with trailing spaces to the fixed left
width 95 when shorter (a longer line is kept whole, never truncated),
followed by the fixed delimiter " | ", followed by the `i`-th right-column
line un-padded; the shorter column contributes empty strings for its
missing trailing lines, and the output has exactly
`max (len left) (len right)` lines. -/
theorem assembleLines_characterization
    (left_content right_content : List String) :
    (assembleLines left_content right_content).length =
        max left_content.length right_content.length ∧
      ∀ i, i < max left_content.length right_content.length →
        (assembleLines left_content right_content).getD i "" =
          (if (left_content.getD i "").length < 95 then
              left_content.getD i ""
                ++ String.mk
                  (List.replicate (95 - (left_content.getD i "").length) ' ')
            else left_content.getD i "")
            ++ " | " ++ right_content.getD i "" := by
  constructor
  · simp [assembleLines]
  · intro i hi
    have hline : (assembleLines left_content right_content).getD i "" =
        pyLjust (left_content.getD i "") leftWidth ++ " | "
          ++ right_content.getD i "" := by
      simp [assembleLines, List.getD, List.getElem?_map, List.getElem?_range, hi]
    rw [hline]
    by_cases hl : (left_content.getD i "").length < 95
    · rw [if_pos hl]; rfl
    · rw [if_neg hl]
      have hz : 95 - (left_content.getD i "").length = 0 := by omega
      show pyLjust (left_content.getD i "") 95 ++ " | "
          ++ right_content.getD i "" = _
      rw [pyLjust, hz]
      congr 2
      exact string_append_mk_nil _

/-- Claim C8 witness: assembling a one-line left column with a two-line
right column, line 1 pads the missing left line to width 95. -/
theorem assembleLines_characterization_witness :
    (assembleLines ["ab"] ["x", "y"]).getD 1 "" =
      (if ("" : String).length < 95 then
          ("" : String) ++ String.mk (List.replicate (95 - ("" : String).length) ' ')
        else ("" : String))
        ++ " | " ++ "y" :=
  (assembleLines_characterization ["ab"] ["x", "y"]).2 1 (by decide)

/-! ## Dictionary lemmas -/

theorem containsKey_cons (p : String × α) (d : PyDict α) (k : String) :
    containsKey (p :: d) k = (p.1 == k || containsKey d k) := by
  simp [containsKey]

theorem containsKey_append (d l : PyDict α) (k : String) :
    containsKey (d ++ l) k = (containsKey d k || containsKey l k) := by
  simp [containsKey]

theorem getVal?_cons (p : String × α) (d : PyDict α) (k : String) :
    getVal? (p :: d) k = if p.1 == k then some p.2 else getVal? d k := by
  simp only [getVal?, List.find?]
  cases h : (p.1 == k) <;> simp [h]

theorem setVal_of_not_containsKey {d : PyDict α} {k : String}
    (h : containsKey d k = false) (v : α) : setVal d k v = d ++ [(k, v)] := by
  simp [setVal, h]

theorem setVal_ne_nil (d : PyDict α) (k : String) (v : α) :
    (setVal d k v).isEmpty = false := by
  rw [setVal]
  split
  next h =>
    cases d with
    | nil => simp [containsKey] at h
    | cons p ps => simp
  next h => simp

theorem getVal?_append_left {d : PyDict α} {k : String}
    (h : containsKey d k = true) (l : PyDict α) :
    getVal? (d ++ l) k = getVal? d k := by
  induction d with
  | nil => simp [containsKey] at h
  | cons p ps ih =>
    rw [containsKey_cons] at h
    rw [List.cons_append, getVal?_cons, getVal?_cons]
    cases hp : (p.1 == k) with
    | true => simp
    | false =>
      have h' : containsKey ps k = true := by simpa [hp] using h
      simp [hp, ih h']

theorem getVal?_append_single_ne {k k' : String} (h : (k == k') = false)
    (d : PyDict α) (v : α) :
    getVal? (d ++ [(k, v)]) k' = getVal? d k' := by
  induction d with
  | nil => simp [getVal?, List.find?, h]
  | cons p ps ih =>
    rw [List.cons_append, getVal?_cons, getVal?_cons, ih]

theorem containsKey_map_update_self {d : PyDict α} {k : String} (v : α)
    (h : containsKey d k = true) :
    containsKey (d.map (fun p => if p.1 == k then (k, v) else p)) k = true := by
  induction d with
  | nil => simp [containsKey] at h
  | cons p ps ih =>
    rw [containsKey_cons] at h
    rw [List.map_cons, containsKey_cons]
    by_cases hp : (p.1 == k) = true
    · rw [if_pos hp]
      rw [show (((k, v) : String × α).1 == k) = true by simp, Bool.true_or]
    · have hp' : (p.1 == k) = false := by simpa using hp
      have h' : containsKey ps k = true := by simpa [hp'] using h
      rw [if_neg hp, hp', Bool.false_or]
      exact ih h'

theorem containsKey_map_update_mono {d : PyDict α} {k k' : String} (v : α)
    (h : containsKey d k' = true) :
    containsKey (d.map (fun p => if p.1 == k then (k, v) else p)) k' = true := by
  induction d with
  | nil => simp [containsKey] at h
  | cons p ps ih =>
    rw [containsKey_cons] at h
    rw [List.map_cons, containsKey_cons]
    by_cases hp : (p.1 == k') = true
    · by_cases hk : (p.1 == k) = true
      · have e1 : p.1 = k := by simpa using hk
        have e2 : p.1 = k' := by simpa using hp
        rw [if_pos hk]
        rw [show (((k, v) : String × α).1 == k') = true by
          rw [← e1, ← e2]; simp]
        rw [Bool.true_or]
      · rw [if_neg hk, hp, Bool.true_or]
    · have hp' : (p.1 == k') = false := by simpa using hp
      have h' : containsKey ps k' = true := by simpa [hp'] using h
      by_cases hk : (p.1 == k) = true
      · rw [if_pos hk, ih h', Bool.or_true]
      · rw [if_neg hk, ih h', Bool.or_true]

theorem getVal?_map_update_ne {d : PyDict α} {k k' : String} (v : α)
    (h : k' ≠ k) :
    getVal? (d.map (fun p => if p.1 == k then (k, v) else p)) k' =
      getVal? d k' := by
  induction d with
  | nil => simp
  | cons p ps ih =>
    rw [List.map_cons, getVal?_cons, getVal?_cons]
    by_cases hk : (p.1 == k) = true
    · have e1 : p.1 = k := by simpa using hk
      have hkk : (k == k') = false := by
        simpa using fun e => h e.symm
      have hpk : (p.1 == k') = false := by rw [e1]; exact hkk
      rw [if_pos hk]
      rw [if_neg (show ¬((((k, v) : String × α).1 == k') = true) by
        simp [hkk])]
      rw [if_neg (show ¬((p.1 == k') = true) by simp [hpk])]
      exact ih
    · rw [if_neg hk]
      by_cases hp : (p.1 == k') = true
      · rw [if_pos hp, if_pos hp]
      · rw [if_neg hp, if_neg hp]
        exact ih

theorem containsKey_setVal_self (d : PyDict α) (k : String) (v : α) :
    containsKey (setVal d k v) k = true := by
  rw [setVal]
  split
  next h => exact containsKey_map_update_self v h
  next h => simp [containsKey_append, containsKey_cons]

theorem containsKey_setVal_mono {d : PyDict α} {k' : String}
    (h : containsKey d k' = true) (k : String) (v : α) :
    containsKey (setVal d k v) k' = true := by
  rw [setVal]
  split
  next hc => exact containsKey_map_update_mono v h
  next hc => simp [containsKey_append, h]

theorem getVal?_setVal_ne {d : PyDict α} {k k' : String} (h : k' ≠ k)
    (v : α) : getVal? (setVal d k v) k' = getVal? d k' := by
  rw [setVal]
  split
  next hc => exact getVal?_map_update_ne v h
  next hc =>
    have hkk : (k == k') = false := by simpa using fun e => h e.symm
    exact getVal?_append_single_ne hkk d v

/-! ## Claim C6: every cited corpus id is cached before rendering -/

theorem foldl_setVal_containsKey (f : String → Option String) (id : String) :
    ∀ (l : List String) (c : PyDict (Option String)),
      (containsKey c id = true ∨ id ∈ l) →
      containsKey
        (l.foldl (fun cache corpus_id => setVal cache corpus_id (f corpus_id))
          c) id = true := by
  intro l
  induction l with
  | nil =>
    intro c h
    simpa using h.resolve_right (by simp)
  | cons x xs ih =>
    intro c h
    rcases h with h | h
    · exact ih _ (Or.inl (containsKey_setVal_mono h x (f x)))
    · rcases List.mem_cons.mp h with rfl | h
      · exact ih _ (Or.inl (containsKey_setVal_self c id (f id)))
      · exact ih _ (Or.inr h)

theorem mem_foldl_addUniqueId_of_mem {x : String} :
    ∀ (cits : List Citation) (acc : List String), x ∈ acc →
      x ∈ cits.foldl addUniqueId acc := by
  intro cits
  induction cits with
  | nil => intro acc h; simpa using h
  | cons c cs ih =>
    intro acc h
    refine ih _ ?_
    rw [addUniqueId]
    split
    · exact h
    · exact List.mem_append_left _ h

theorem corpus_id_mem_foldl_addUniqueId {c : Citation} :
    ∀ (cits : List Citation) (acc : List String), c ∈ cits →
      c.corpus_id ∈ cits.foldl addUniqueId acc := by
  intro cits
  induction cits with
  | nil => intro acc h; simp at h
  | cons c' cs ih =>
    intro acc h
    rcases List.mem_cons.mp h with rfl | h
    · refine mem_foldl_addUniqueId_of_mem cs _ ?_
      rw [addUniqueId]
      split
      next hc => exact List.mem_of_elem_eq_true hc
      next hc => exact List.mem_append_right _ (by simp)
    · exact ih _ h

theorem mem_outer_fold_of_mem {x : String} :
    ∀ (sections : List Section) (acc : List String), x ∈ acc →
      x ∈ sections.foldl (fun acc s => s.citations.foldl addUniqueId acc)
        acc := by
  intro sections
  induction sections with
  | nil => intro acc h; simpa using h
  | cons s ss ih =>
    intro acc h
    exact ih _ (mem_foldl_addUniqueId_of_mem _ _ h)

theorem corpus_id_mem_uniqueCorpusIds {sections : List Section} {s : Section}
    {c : Citation} (hs : s ∈ sections) (hc : c ∈ s.citations) :
    c.corpus_id ∈ uniqueCorpusIds sections := by
  rw [uniqueCorpusIds]
  suffices h : ∀ (l : List Section) (acc : List String), s ∈ l →
      c.corpus_id ∈ l.foldl (fun acc s => s.citations.foldl addUniqueId acc)
        acc from h sections [] hs
  intro l
  induction l with
  | nil => intro acc h; simp at h
  | cons s' ss ih =>
    intro acc h
    rcases List.mem_cons.mp h with rfl | h
    · exact mem_outer_fold_of_mem ss _
        (corpus_id_mem_foldl_addUniqueId _ _ hc)
    · exact ih _ h

/-- Claim C6: for every run that reaches the rendering phase, every
corpus id appearing in any extracted section's citations is a key of the
DOI cache after the fetch loop (whatever cache the resolution started
from, and whatever DOI — possibly none — each fetch returned), so the
rendering never consults an id absent from the cache. -/
theorem all_cited_ids_cached (cache : PyDict (Option String))
    (sections : List Section) (fetchResult : String → Option String) :
    ∀ s ∈ sections, ∀ c ∈ s.citations,
      containsKey (resolveAll cache (uniqueCorpusIds sections) fetchResult)
        c.corpus_id = true := by
  intro s hs c hc
  rw [resolveAll]
  by_cases h : containsKey cache c.corpus_id = true
  · exact foldl_setVal_containsKey _ _ _ _ (Or.inl h)
  · have h' : containsKey cache c.corpus_id = false := by
      simpa using h
    refine foldl_setVal_containsKey _ _ _ _ (Or.inr ?_)
    rw [toFetch]
    refine List.mem_filter.mpr ⟨corpus_id_mem_uniqueCorpusIds hs hc, ?_⟩
    simp [h']

/-- Claim C6 witness: in a one-section report citing corpus id "9" with an
empty starting cache, the id is a cache key once resolution finished. -/
theorem all_cited_ids_cached_witness :
    containsKey
      (resolveAll []
        (uniqueCorpusIds [⟨"S", "", none, [⟨"9", "(Z)"⟩]⟩])
        (fun _ => none))
      "9" = true :=
  all_cited_ids_cached [] [⟨"S", "", none, [⟨"9", "(Z)"⟩]⟩] (fun _ => none)
    ⟨"S", "", none, [⟨"9", "(Z)"⟩]⟩ (by decide) ⟨"9", "(Z)"⟩ (by decide)

/-! ## Claim C7: legacy merge never overwrites -/

theorem importStep_preserves {cache : PyDict (Option String)} {k : String}
    (h : containsKey cache k = true) (textMap : PyDict String) (c : Citation) :
    containsKey (importStep textMap cache c) k = true ∧
      getVal? (importStep textMap cache c) k = getVal? cache k := by
  rw [importStep]
  cases hm : getVal? textMap c.display with
  | none => exact ⟨h, rfl⟩
  | some doi =>
    dsimp only
    by_cases hc : containsKey cache c.corpus_id = true
    · rw [if_pos hc]; exact ⟨h, rfl⟩
    · have hc' : containsKey cache c.corpus_id = false := by simpa using hc
      rw [if_neg hc, setVal_of_not_containsKey hc']
      constructor
      · rw [containsKey_append, h, Bool.true_or]
      · exact getVal?_append_left h _

theorem foldl_importStep_preserves (textMap : PyDict String) {k : String} :
    ∀ (cits : List Citation) (cache : PyDict (Option String)),
      containsKey cache k = true →
      containsKey (cits.foldl (importStep textMap) cache) k = true ∧
        getVal? (cits.foldl (importStep textMap) cache) k =
          getVal? cache k := by
  intro cits
  induction cits with
  | nil => intro cache h; exact ⟨h, rfl⟩
  | cons c cs ih =>
    intro cache h
    have step := importStep_preserves h textMap c
    have rest := ih _ step.1
    exact ⟨rest.1, rest.2.trans step.2⟩

theorem foldl_sections_importStep_preserves (textMap : PyDict String)
    {k : String} :
    ∀ (sections : List Section) (cache : PyDict (Option String)),
      containsKey cache k = true →
      containsKey
          (sections.foldl
            (fun cache s => s.citations.foldl (importStep textMap) cache)
            cache) k = true ∧
        getVal?
          (sections.foldl
            (fun cache s => s.citations.foldl (importStep textMap) cache)
            cache) k = getVal? cache k := by
  intro sections
  induction sections with
  | nil => intro cache h; exact ⟨h, rfl⟩
  | cons s ss ih =>
    intro cache h
    have step := foldl_importStep_preserves textMap s.citations cache h
    have rest := ih _ step.1
    exact ⟨rest.1, rest.2.trans step.2⟩

/-- Claim C7: the legacy-import merge never overwrites an existing cache
entry: every corpus id already present in the cache before the merge keeps
its exact value afterwards, regardless of what DOI the legacy file maps
any display label to. -/
theorem importLegacy_never_overwrites (cache : PyDict (Option String))
    (textMap : PyDict String) (sections : List Section) (k : String)
    (h : containsKey cache k = true) :
    getVal? (importLegacy cache textMap sections) k = getVal? cache k := by
  rw [importLegacy]
  split
  · rfl
  · exact (foldl_sections_importStep_preserves textMap sections cache h).2

/-- Claim C7 witness: with cache `{"5": "10.1/a"}`, the legacy entry
`(X) -> 10.1/b` (stored under its parsed key "X") and a citation of corpus
id "5" displayed "(X)", the cache still maps "5" to "10.1/a" after the
merge. -/
theorem importLegacy_never_overwrites_witness :
    getVal?
      (importLegacy [("5", some "10.1/a")] [("X", "10.1/b")]
        [⟨"S", "", none, [⟨"5", "(X)"⟩]⟩])
      "5" = some (some "10.1/a") :=
  (importLegacy_never_overwrites [("5", some "10.1/a")] [("X", "10.1/b")]
      [⟨"S", "", none, [⟨"5", "(X)"⟩]⟩] "5" (by decide)).trans (by decide)

/-! ## Claim C9: each id is fetched at most once -/

theorem nodup_foldl_addUniqueId :
    ∀ (cits : List Citation) (acc : List String), acc.Nodup →
      (cits.foldl addUniqueId acc).Nodup := by
  intro cits
  induction cits with
  | nil => intro acc h; simpa using h
  | cons c cs ih =>
    intro acc h
    refine ih _ ?_
    rw [addUniqueId]
    split
    · exact h
    next hc =>
      have hnm : c.corpus_id ∉ acc := fun hmem =>
        hc (List.elem_eq_true_of_mem hmem)
      simp [List.nodup_append, h, hnm]

theorem nodup_uniqueCorpusIds (sections : List Section) :
    (uniqueCorpusIds sections).Nodup := by
  rw [uniqueCorpusIds]
  suffices h : ∀ (l : List Section) (acc : List String), acc.Nodup →
      (l.foldl (fun acc s => s.citations.foldl addUniqueId acc) acc).Nodup from
    h sections [] (by simp)
  intro l
  induction l with
  | nil => intro acc h; simpa using h
  | cons s ss ih => intro acc h; exact ih _ (nodup_foldl_addUniqueId _ _ h)

/-- Claim C9: the ids sent to the external lookup are the unique cited ids
partitioned away from the already-cached ones: the fetch list has no
duplicate (each id is fetched at most once), an id already in the cache is
never in it (any further occurrence is served from the cache), and it only
contains ids cited in the report. -/
theorem toFetch_partition (cache : PyDict (Option String))
    (sections : List Section) :
    (toFetch cache (uniqueCorpusIds sections)).Nodup ∧
      (∀ id, containsKey cache id = true →
        id ∉ toFetch cache (uniqueCorpusIds sections)) ∧
      ∀ id ∈ toFetch cache (uniqueCorpusIds sections),
        id ∈ uniqueCorpusIds sections := by
  refine ⟨?_, ?_, ?_⟩
  · rw [toFetch]
    exact (nodup_uniqueCorpusIds sections).filter _
  · intro id hid hmem
    rw [toFetch] at hmem
    have h2 := (List.mem_filter.mp hmem).2
    rw [hid] at h2
    simp at h2
  · intro id hmem
    rw [toFetch] at hmem
    exact (List.mem_filter.mp hmem).1

/-- Claim C9 witness: corpus id "1", cited twice but already cached, is not
in the fetch list. -/
theorem toFetch_partition_witness :
    "1" ∉ toFetch [("1", some "10.1/x")]
        (uniqueCorpusIds [⟨"S", "", none, [⟨"1", "(A)"⟩, ⟨"1", "(A)"⟩]⟩]) :=
  (toFetch_partition [("1", some "10.1/x")]
      [⟨"S", "", none, [⟨"1", "(A)"⟩, ⟨"1", "(A)"⟩]⟩]).2.1 "1" (by decide)

/-! ## Claim C10: legacy merge only consults present display labels -/

theorem importStep_congr {m1 m2 : PyDict String} {c : Citation}
    (h : getVal? m1 c.display = getVal? m2 c.display)
    (cache : PyDict (Option String)) :
    importStep m1 cache c = importStep m2 cache c := by
  rw [importStep, importStep, h]

theorem foldl_importStep_congr {m1 m2 : PyDict String} :
    ∀ (cits : List Citation) (cache : PyDict (Option String)),
      (∀ c ∈ cits, getVal? m1 c.display = getVal? m2 c.display) →
      cits.foldl (importStep m1) cache = cits.foldl (importStep m2) cache := by
  intro cits
  induction cits with
  | nil => intro cache _; rfl
  | cons c cs ih =>
    intro cache h
    rw [List.foldl_cons, List.foldl_cons, importStep_congr (h c (by simp)) cache]
    exact ih _ (fun c' hc' => h c' (List.mem_cons_of_mem _ hc'))

theorem foldl_sections_importStep_congr {m1 m2 : PyDict String} :
    ∀ (sections : List Section) (cache : PyDict (Option String)),
      (∀ s ∈ sections, ∀ c ∈ s.citations,
        getVal? m1 c.display = getVal? m2 c.display) →
      sections.foldl (fun cache s => s.citations.foldl (importStep m1) cache)
          cache =
        sections.foldl (fun cache s => s.citations.foldl (importStep m2) cache)
          cache := by
  intro sections
  induction sections with
  | nil => intro cache _; rfl
  | cons s ss ih =>
    intro cache h
    rw [List.foldl_cons, List.foldl_cons,
      foldl_importStep_congr s.citations cache (h s (by simp))]
    exact ih _ (fun s' hs' c hc => h s' (List.mem_cons_of_mem _ hs') c hc)

theorem importStep_nil_map (cache : PyDict (Option String)) (c : Citation) :
    importStep [] cache c = cache := rfl

theorem foldl_importStep_nil_map :
    ∀ (cits : List Citation) (cache : PyDict (Option String)),
      cits.foldl (importStep []) cache = cache := by
  intro cits
  induction cits with
  | nil => intro cache; rfl
  | cons c cs ih =>
    intro cache
    rw [List.foldl_cons, importStep_nil_map]
    exact ih _

theorem foldl_sections_importStep_nil_map :
    ∀ (sections : List Section) (cache : PyDict (Option String)),
      sections.foldl (fun cache s => s.citations.foldl (importStep []) cache)
        cache = cache := by
  intro sections
  induction sections with
  | nil => intro cache; rfl
  | cons s ss ih =>
    intro cache
    rw [List.foldl_cons, foldl_importStep_nil_map]
    exact ih _

/-- Claim C10: the legacy-import merge only consults display labels of
citations actually present in the report: a legacy entry whose label
matches no retained citation's display label adds no cache key and changes
no cache value — the merge result with that entry added to the legacy map
is identical to the result without it, so the legacy file is never
imported wholesale. -/
theorem importLegacy_ignores_unmatched_labels (cache : PyDict (Option String))
    (textMap : PyDict String) (sections : List Section) (label doi : String)
    (h : ∀ s ∈ sections, ∀ c ∈ s.citations, c.display ≠ label) :
    importLegacy cache (setVal textMap label doi) sections =
      importLegacy cache textMap sections := by
  have hpt : ∀ s ∈ sections, ∀ c ∈ s.citations,
      getVal? (setVal textMap label doi) c.display =
        getVal? textMap c.display :=
    fun s hs c hc => getVal?_setVal_ne (h s hs c hc) doi
  rw [importLegacy, importLegacy]
  by_cases hm : textMap.isEmpty = true
  · have htm : textMap = [] := by simpa using hm
    subst htm
    rw [if_pos hm]
    rw [if_neg (show ¬((setVal [] label doi).isEmpty = true) by
      rw [setVal_ne_nil]; exact Bool.false_ne_true)]
    rw [foldl_sections_importStep_congr sections cache hpt]
    exact foldl_sections_importStep_nil_map sections cache
  · have hm' : textMap.isEmpty = false := by simpa using hm
    rw [if_neg (show ¬((setVal textMap label doi).isEmpty = true) by
      rw [setVal_ne_nil]; exact Bool.false_ne_true)]
    rw [if_neg (show ¬(textMap.isEmpty = true) by
      rw [hm']; exact Bool.false_ne_true)]
    exact foldl_sections_importStep_congr sections cache hpt

/-- Claim C10 witness: adding a legacy entry for label "B", which no
citation displays, leaves the merge result unchanged. -/
theorem importLegacy_ignores_unmatched_labels_witness :
    importLegacy [] (setVal [("A", "d1")] "B" "d2")
        [⟨"S", "", none, [⟨"7", "(A)"⟩]⟩] =
      importLegacy [] [("A", "d1")] [⟨"S", "", none, [⟨"7", "(A)"⟩]⟩] :=
  importLegacy_ignores_unmatched_labels [] [("A", "d1")]
    [⟨"S", "", none, [⟨"7", "(A)"⟩]⟩] "B" "d2" (by decide)

/-! ## Claim C3: the rendered reference list -/

theorem seen_any_eq_containsKey (acc : PyDict (Option String)) (k : String) :
    (acc.map Prod.fst).any (fun x => x == k) = containsKey acc k := by
  induction acc with
  | nil => rfl
  | cons p ps ih => rw [List.map_cons, List.any_cons, containsKey_cons, ih]

theorem foldl_sections_citations_eq_flatten {γ : Type} (g : γ → Citation → γ) :
    ∀ (sections : List Section) (init : γ),
      sections.foldl (fun acc s => s.citations.foldl g acc) init =
        ((sections.map Section.citations).flatten).foldl g init := by
  intro sections
  induction sections with
  | nil => intro init; rfl
  | cons s ss ih =>
    intro init
    rw [List.map_cons, List.flatten_cons, List.foldl_append, List.foldl_cons]
    exact ih _

theorem foldl_citStep_eq_pairStep (cache : PyDict (Option String)) :
    ∀ (cits : List Citation) (acc : PyDict (Option String)),
      cits.foldl
        (fun refs c => if containsKey refs c.display then refs
          else setVal refs c.display (cacheGet cache c.corpus_id)) acc =
      (cits.map (fun c => (c.display, cacheGet cache c.corpus_id))).foldl
        (fun refs p => if containsKey refs p.1 then refs
          else setVal refs p.1 p.2) acc := by
  intro cits
  induction cits with
  | nil => intro acc; rfl
  | cons c cs ih =>
    intro acc
    rw [List.map_cons, List.foldl_cons, List.foldl_cons]
    exact ih _

theorem foldl_refStep_setVal_eq_append :
    ∀ (l : List (String × Option String)) (acc : PyDict (Option String)),
      l.foldl
        (fun refs p => if containsKey refs p.1 then refs
          else setVal refs p.1 p.2) acc =
      l.foldl
        (fun refs p => if containsKey refs p.1 then refs else refs ++ [p])
        acc := by
  intro l
  induction l with
  | nil => intro acc; rfl
  | cons p ps ih =>
    intro acc
    rw [List.foldl_cons, List.foldl_cons]
    by_cases hc : containsKey acc p.1 = true
    · rw [if_pos hc, if_pos hc]
      exact ih _
    · have hc' : containsKey acc p.1 = false := by simpa using hc
      rw [if_neg hc, if_neg hc, setVal_of_not_containsKey hc', Prod.mk.eta]
      exact ih _

theorem foldl_append_step_eq_dedupAux :
    ∀ (l : List (String × Option String)) (acc : PyDict (Option String)),
      l.foldl
        (fun refs p => if containsKey refs p.1 then refs else refs ++ [p])
        acc =
      acc ++ dedupFirstSeenAux (acc.map Prod.fst) l := by
  intro l
  induction l with
  | nil => intro acc; rw [dedupFirstSeenAux, List.append_nil]; rfl
  | cons p ps ih =>
    intro acc
    rw [List.foldl_cons, dedupFirstSeenAux, seen_any_eq_containsKey]
    by_cases hc : containsKey acc p.1 = true
    · rw [if_pos hc, if_pos hc]
      exact ih _
    · rw [if_neg hc, if_neg hc]
      rw [ih (acc ++ [p])]
      rw [List.map_append, List.append_assoc, List.singleton_append]
      rfl

theorem buildAllReferences_eq_dedup (cache : PyDict (Option String))
    (sections : List Section) :
    buildAllReferences cache sections =
      dedupFirstSeen (allCitationPairs cache sections) := by
  rw [buildAllReferences, allCitationPairs, dedupFirstSeen]
  rw [foldl_sections_citations_eq_flatten]
  rw [foldl_citStep_eq_pairStep]
  rw [foldl_refStep_setVal_eq_append]
  rw [foldl_append_step_eq_dedupAux]
  rfl

theorem renderRefLine_eq_amended (p : String × Option String) :
    renderRefLine p = specRefLineAmended p := by
  obtain ⟨n, d⟩ := p
  cases d with
  | none =>
    show n ++ " -> " ++ "NO DOI FOUND" = n ++ " -> NO DOI FOUND"
    rw [String.append_assoc]
    congr 1
  | some doi =>
    by_cases hd : doi = ""
    · subst hd
      show n ++ " -> " ++ "NO DOI FOUND" = n ++ " -> NO DOI FOUND"
      rw [String.append_assoc]
      congr 1
    · show n ++ " -> " ++
          (if doi = "" then "NO DOI FOUND" else "https://doi.org/" ++ doi) =
        if doi = "" then n ++ " -> NO DOI FOUND"
        else n ++ " -> https://doi.org/" ++ doi
      rw [if_neg hd, if_neg hd]
      rw [show (" -> https://doi.org/" : String) = " -> " ++ "https://doi.org/"
        by decide]
      rw [← String.append_assoc n " -> " "https://doi.org/"]
      rw [String.append_assoc (n ++ " -> ") "https://doi.org/" doi]

/-- Claim C3 counterexample: with the cache storing the empty-string DOI
for corpus id "5" (a value the persisted cache file can carry), the code's
truthiness test `if ref_doi:` renders "NO DOI FOUND" although a DOI is
present in the cache, so the rendered list differs from the one the claim
describes. -/
theorem referenceLines_counterexample :
    referenceLines [("5", some "")] [⟨"S", "", none, [⟨"5", "(A)"⟩]⟩] =
        ["(A) -> NO DOI FOUND"] ∧
      specReferenceLines [("5", some "")] [⟨"S", "", none, [⟨"5", "(A)"⟩]⟩] =
        ["(A) -> https://doi.org/"] ∧
      referenceLines [("5", some "")] [⟨"S", "", none, [⟨"5", "(A)"⟩]⟩] ≠
        specReferenceLines [("5", some "")]
          [⟨"S", "", none, [⟨"5", "(A)"⟩]⟩] := by
  exact ⟨by decide, by decide, by decide⟩

/-- Claim C3 (amended): the rendered right-column reference list is
obtained by folding all citations across all sections in order, keeping
for each display name only the first-seen occurrence's DOI, sorting the
resulting pairs by display name under case-sensitive default string
ordering, and rendering each entry as
"display_name -> https://doi.org/<doi>" when a non-empty DOI is present
and "display_name -> NO DOI FOUND" when it is absent or empty. -/
theorem referenceLines_eq_spec (cache : PyDict (Option String))
    (sections : List Section) :
    referenceLines cache sections =
      specReferenceLinesAmended cache sections := by
  rw [referenceLines, specReferenceLinesAmended, buildAllReferences_eq_dedup]
  rw [show renderRefLine = specRefLineAmended from
    funext renderRefLine_eq_amended]

/-! ## Text-layout lemmas (for claims C4 and C5) -/

theorem sum_length_splitWordsAux :
    ∀ (s cur : PyStr),
      ((splitWordsAux s cur).map List.length).sum ≤ s.length + cur.length := by
  intro s
  induction s with
  | nil =>
    intro cur
    rw [splitWordsAux]
    by_cases hc : cur.isEmpty
    · rw [if_pos hc]; simp
    · rw [if_neg hc]; simp
  | cons c rest ih =>
    intro cur
    rw [splitWordsAux]
    by_cases hws : c.isWhitespace
    · rw [if_pos hws]
      by_cases hc : cur.isEmpty
      · rw [if_pos hc]
        have := ih []
        simp only [List.length_nil] at this
        simp only [List.length_cons]
        omega
      · rw [if_neg hc]
        have := ih []
        simp only [List.length_nil] at this
        simp only [List.map_cons, List.sum_cons, List.length_reverse,
          List.length_cons]
        omega
    · rw [if_neg hws]
      have := ih (c :: cur)
      simp only [List.length_cons] at this ⊢
      omega

theorem sum_length_pySplit (text : PyStr) :
    ((pySplit text).map List.length).sum ≤ text.length := by
  have := sum_length_splitWordsAux text []
  simpa using this

theorem joinWords_cons_ne (w : PyStr) {l : List PyStr} (h : l ≠ []) :
    joinWords (w :: l) = w ++ ' ' :: joinWords l := by
  cases l with
  | nil => exact absurd rfl h
  | cons x xs => rfl

theorem joinWords_length_cons :
    ∀ (ws : List PyStr) (w : PyStr),
      (joinWords (w :: ws)).length =
        ((w :: ws).map List.length).sum + ws.length := by
  intro ws
  induction ws with
  | nil => intro w; simp [joinWords]
  | cons x xs ih =>
    intro w
    rw [joinWords_cons_ne w (by simp)]
    have := ih x
    simp only [List.length_append, List.length_cons, List.map_cons,
      List.sum_cons] at this ⊢
    omega

theorem buildJustified_length (spg extra : Nat) :
    ∀ (ws : List PyStr) (w : PyStr) (i : Nat),
      (buildJustified (w :: ws) spg extra i).length =
        ((w :: ws).map List.length).sum + ws.length * spg +
          (min extra (i + ws.length) - min extra i) := by
  intro ws
  induction ws with
  | nil =>
    intro w i
    simp [buildJustified]
  | cons x xs ih =>
    intro w i
    rw [show buildJustified (w :: x :: xs) spg extra i =
        w ++ List.replicate (spg + (if i < extra then 1 else 0)) ' '
          ++ buildJustified (x :: xs) spg extra (i + 1) from rfl]
    have hx := ih x (i + 1)
    simp only [List.length_append, List.length_replicate, List.map_cons,
      List.sum_cons, List.length_cons] at hx ⊢
    rw [add_one_mul]
    by_cases hi : i < extra
    · simp only [if_pos hi] at hx ⊢
      omega
    · simp only [if_neg hi] at hx ⊢
      omega

theorem justify_text_length (text : PyStr) (width : Nat)
    (h : text.length ≤ width) : (justify_text text width).length = width := by
  have hsum := sum_length_pySplit text
  simp only [justify_text]
  split_ifs with h1 h2
  · simp only [pyLjustChars, List.length_append, List.length_replicate]
    omega
  · simp only [pyLjustChars, List.length_append, List.length_replicate]
    omega
  · push_neg at h1
    obtain ⟨hlen2, hlt⟩ := h1
    cases hw : pySplit text with
    | nil => rw [hw] at hlen2; simp at hlen2
    | cons w ws =>
      rw [hw] at hsum
      cases ws with
      | nil => rw [hw] at hlen2; simp at hlen2
      | cons x xs =>
        have hgaps : ((w :: x :: xs : List PyStr)).length - 1 =
            ((x :: xs : List PyStr)).length := rfl
        rw [hgaps, buildJustified_length]
        have hmod := Nat.div_add_mod
          (width - ((w :: x :: xs).map List.length).sum) (x :: xs).length
        have hlt' : (width - ((w :: x :: xs).map List.length).sum) %
            (x :: xs).length < (x :: xs).length :=
          Nat.mod_lt _ (by simp)
        simp only [List.map_cons, List.sum_cons,
          List.length_cons] at hsum hmod hlt' ⊢
        omega

theorem mem_of_mem_dropLast {α : Type} {l : List α} {a : α}
    (h : a ∈ l.dropLast) : a ∈ l := by
  induction l with
  | nil => simp at h
  | cons x xs ih =>
    cases xs with
    | nil => simp at h
    | cons y ys =>
      rw [List.dropLast_cons₂, List.mem_cons] at h
      rcases h with rfl | h
      · exact List.mem_cons_self _ _
      · exact List.mem_cons_of_mem _ (ih h)

/-! ## Claim C4: justified lines have exactly the target width -/

theorem wrapAux_justified_lines (width : Nat) :
    ∀ (ws cur : List PyStr) (clen : Nat) (lines : List PyStr),
      (∀ w ∈ ws, w.length ≤ width) →
      clen = (cur.map List.length).sum →
      (cur ≠ [] → clen + (cur.length - 1) ≤ width) →
      (∀ l ∈ lines, l.length = width) →
      ∀ l ∈ (wrapAux width true ws cur clen lines).dropLast,
        l.length = width := by
  intro ws
  induction ws with
  | nil =>
    intro cur clen lines hws hclen hcur hlines
    rw [wrapAux]
    by_cases hc : cur.isEmpty
    · rw [if_pos hc]
      intro l hl
      exact hlines l (mem_of_mem_dropLast hl)
    · rw [if_neg hc, List.dropLast_concat]
      intro l hl
      exact hlines l hl
  | cons w rest ih =>
    intro cur clen lines hws hclen hcur hlines
    simp only [wrapAux]
    by_cases hle : clen + w.length + cur.length ≤ width
    · rw [if_pos hle]
      refine ih (cur ++ [w]) (clen + w.length) lines
        (fun w' hw' => hws w' (List.mem_cons_of_mem _ hw')) ?_ ?_ hlines
      · rw [List.map_append, List.sum_append, hclen]
        simp
      · intro _
        rw [List.length_append]
        simp only [List.length_cons, List.length_nil]
        omega
    · rw [if_neg hle]
      have hw0 : w.length ≤ width := hws w (List.mem_cons_self _ _)
      refine ih [w] w.length _
        (fun w' hw' => hws w' (List.mem_cons_of_mem _ hw')) (by simp) ?_ ?_
      · intro _
        simp only [List.length_cons, List.length_nil]
        omega
      · by_cases hc : cur.isEmpty
        · rw [if_pos hc]
          exact hlines
        · rw [if_neg hc]
          intro l hl
          rcases List.mem_append.mp hl with hl | hl
          · exact hlines l hl
          · have hl' : l = justify_text (joinWords cur) width := by
              simpa using hl
            subst hl'
            cases cur with
            | nil => simp at hc
            | cons c cs =>
              refine justify_text_length _ _ ?_
              rw [joinWords_length_cons]
              have := hcur (by simp)
              rw [hclen] at this
              simpa using this

/-- Claim C4 counterexample: with width 5 and text "aaaaaaa b", whose first
word is longer than the width, the first (non-final) justified line keeps
its 7 characters — overlong words are never split or truncated — so not
every line but the last has rendered length 5. -/
theorem wrap_justified_counterexample :
    ¬ ∀ line ∈ (wrap_text_justified (pyStr "aaaaaaa b") 5 true).dropLast,
        line.length = 5 := by decide

/-- Claim C4 (amended): for every text T and every width W that is at least
the length of every word of T, every line produced by wrapping T to width
W with justification enabled, except the last line of the whole wrapped
text, has rendered length exactly W. -/
theorem wrap_justified_line_lengths (text : PyStr) (width : Nat)
    (hw : ∀ w ∈ pySplit text, w.length ≤ width) :
    ∀ line ∈ (wrap_text_justified text width true).dropLast,
      line.length = width := by
  simp only [wrap_text_justified]
  by_cases he : (wrapAux width true (pySplit text) [] 0 []).isEmpty
  · rw [if_pos he]
    intro l hl
    simp at hl
  · rw [if_neg he]
    exact wrapAux_justified_lines width (pySplit text) [] 0 [] hw rfl
      (fun hne => absurd rfl hne) (by intro l hl; simp at hl)

/-- Claim C4 witness: "aa bb cc" wrapped to width 5 with justification —
all words fit the width, and the non-final line has length exactly 5. -/
theorem wrap_justified_line_lengths_witness :
    (∀ w ∈ pySplit (pyStr "aa bb cc"), w.length ≤ 5) ∧
      ∀ line ∈ (wrap_text_justified (pyStr "aa bb cc") 5 true).dropLast,
        line.length = 5 :=
  ⟨by decide, wrap_justified_line_lengths (pyStr "aa bb cc") 5 (by decide)⟩

/-! ## Claim C5: unjustified wrapping preserves the word sequence -/

theorem joinWords_concat_word :
    ∀ (cur : List PyStr) (w : PyStr), cur ≠ [] →
      joinWords (cur ++ [w]) = joinWords cur ++ ' ' :: w := by
  intro cur
  induction cur with
  | nil => intro w h; exact absurd rfl h
  | cons x xs ih =>
    intro w _
    cases xs with
    | nil => rfl
    | cons y ys =>
      rw [List.cons_append]
      rw [joinWords_cons_ne x (by simp), joinWords_cons_ne x (by simp)]
      rw [ih w (by simp)]
      simp [List.append_assoc]

theorem joinWords_merge_pair :
    ∀ (xs : List PyStr) (a b : PyStr) (ys : List PyStr),
      joinWords (xs ++ a :: b :: ys) =
        joinWords (xs ++ (a ++ ' ' :: b) :: ys) := by
  intro xs
  induction xs with
  | nil =>
    intro a b ys
    cases ys with
    | nil => rfl
    | cons y ys' =>
      rw [List.nil_append, List.nil_append]
      rw [joinWords_cons_ne a (by simp), joinWords_cons_ne b (by simp),
        joinWords_cons_ne (a ++ ' ' :: b) (by simp)]
      simp [List.append_assoc]
  | cons x xs' ih =>
    intro a b ys
    rw [List.cons_append, List.cons_append]
    rw [joinWords_cons_ne x (by simp), joinWords_cons_ne x (by simp)]
    rw [ih]

theorem wrapAux_join_eq (width : Nat) :
    ∀ (ws cur : List PyStr) (clen : Nat) (lines : List PyStr),
      joinWords (wrapAux width false ws cur clen lines) =
        joinWords (lines ++
          (if cur.isEmpty then [] else [joinWords cur]) ++ ws) := by
  intro ws
  induction ws with
  | nil =>
    intro cur clen lines
    rw [wrapAux]
    by_cases hc : cur.isEmpty
    · rw [if_pos hc, if_pos hc, List.append_nil, List.append_nil]
    · rw [if_neg hc, if_neg hc, List.append_nil]
  | cons w rest ih =>
    intro cur clen lines
    simp only [wrapAux, Bool.false_eq_true, if_false]
    by_cases hle : clen + w.length + cur.length ≤ width
    · rw [if_pos hle, ih]
      rw [if_neg (show ¬((cur ++ [w]).isEmpty = true) by simp)]
      by_cases hc : cur.isEmpty
      · have hcur : cur = [] := by simpa using hc
        subst hcur
        rw [if_pos hc]
        simp [joinWords, List.append_assoc]
      · rw [if_neg hc]
        have hcur : cur ≠ [] := by simpa [List.isEmpty_iff] using hc
        rw [joinWords_concat_word cur w hcur]
        simp only [List.append_assoc, List.singleton_append, List.cons_append]
        exact (joinWords_merge_pair lines (joinWords cur) w rest).symm
    · rw [if_neg hle, ih]
      rw [if_neg (show ¬(([w] : List PyStr).isEmpty = true) by simp)]
      by_cases hc : cur.isEmpty
      · have hcur : cur = [] := by simpa using hc
        subst hcur
        rw [if_pos hc, if_pos hc]
        simp [joinWords, List.append_assoc]
      · rw [if_neg hc, if_neg hc]
        simp [joinWords, List.append_assoc]

/-- Claim C5 counterexample: the text "a  b" (two spaces) at width 3 has no
word longer than the width, yet rejoining the wrapped lines with single
spaces yields "a b", not the original text: wrapping normalizes whitespace
runs, so T itself is not always reconstructed. -/
theorem wrap_rejoin_counterexample :
    (∀ w ∈ pySplit (pyStr "a  b"), w.length ≤ 3) ∧
      joinWords (wrap_text_justified (pyStr "a  b") 3 false) ≠
        pyStr "a  b" := by
  exact ⟨by decide, by decide⟩

/-- Claim C5 (amended): for every text T and width W at least the length of
every word of T, joining the lines of the unjustified wrap of T with
single spaces reconstructs the whitespace-normalized text
`' '.join(T.split())`: no word is dropped, duplicated, or reordered. -/
theorem wrap_rejoin (text : PyStr) (width : Nat)
    (hw : ∀ w ∈ pySplit text, w.length ≤ width) :
    joinWords (wrap_text_justified text width false) =
      joinWords (pySplit text) := by
  simp only [wrap_text_justified]
  have h0 := wrapAux_join_eq width (pySplit text) [] 0 []
  by_cases he : (wrapAux width false (pySplit text) [] 0 []).isEmpty
  · rw [if_pos he]
    rw [List.isEmpty_iff.mp he] at h0
    rw [show joinWords ([[]] : List PyStr) = joinWords ([] : List PyStr)
      from rfl, h0]
    simp
  · rw [if_neg he]
    simpa using h0

/-- Claim C5 witness: "aa bb" wrapped at width 2 rejoins to the normalized
text. -/
theorem wrap_rejoin_witness :
    joinWords (wrap_text_justified (pyStr "aa bb") 2 false) =
      joinWords (pySplit (pyStr "aa bb")) :=
  wrap_rejoin (pyStr "aa bb") 2 (by decide)

end ExtractCitations
